import Mathlib

/-!
Verification development for the detection-and-alert pipeline of the
ONNX-YOLOv8 object-detection repository.

The embedding below mirrors `detector.py` (sampling loop, `detect_in_frames`,
the debounce logic inside `main`, `send_alert` / `send_alert_image`) and
`alert_server.py` (`compress_image`).  Timestamps, byte sizes and JPEG
qualities are natural numbers; external capabilities (the YOLO detector, PIL
encoding, the HTTP sink) are parameters of the definitions, so every theorem
quantifies over their behaviour.
-/

/-- Mirror of the `DetectionState` class in detector.py (lines 67-73):
`detected_since` is `none` or the timestamp of the cycle that started the
current detection run, and `alert_sent` records whether the current run has
already fired an alert. -/
structure DetectionState where
  detected_since : Option Nat
  alert_sent : Bool
  deriving DecidableEq, Repr

/-- The initial state built by `DetectionState.__init__`. -/
def initState : DetectionState := ⟨none, false⟩

/-- One cycle of the debounce logic of `main` (detector.py lines 196-240),
as a function of the threshold `T` (`DURATION_TIME_IN_SECS`), the current
state, the per-cycle boolean `present` (`target_detected`) and the cycle
timestamp `now` (`current_time`).  Returns the next state and whether this
cycle fired an alert (entered the threshold-crossing branch). -/
def mainDebounceStep (T : Nat) (s : DetectionState) (present : Bool) (now : Nat) :
    DetectionState × Bool :=
  if present then
    match s.detected_since with
    | none => (⟨some now, false⟩, false)
    | some t0 =>
      if T ≤ now - t0 ∧ s.alert_sent = false then (⟨some t0, true⟩, true)
      else (s, false)
  else (⟨none, false⟩, false)

/-- Number of alerts fired by running the debounce logic over a sequence of
per-cycle `present` booleans, the i-th cycle happening at time `i * P`
(fixed cycle period `P`), starting from state `s` at cycle index `i`. -/
def runAlerts (P T : Nat) : DetectionState → Nat → List Bool → Nat
  | _, _, [] => 0
  | s, i, b :: rest =>
    (if (mainDebounceStep T s b (i * P)).2 then 1 else 0) +
      runAlerts P T (mainDebounceStep T s b (i * P)).1 (i + 1) rest

/-- Final state after running the debounce logic over a list of
(present, timestamp) cycle inputs. -/
def runDebounce (T : Nat) : DetectionState → List (Bool × Nat) → DetectionState
  | s, [] => s
  | s, (b, t) :: rest => runDebounce T (mainDebounceStep T s b t).1 rest

/-- Lengths of the maximal contiguous `true`-runs of a boolean sequence;
`k` is the length of the run in progress when entering the remaining list. -/
def runLengthsAux : Nat → List Bool → List Nat
  | k, [] => if k = 0 then [] else [k]
  | k, true :: rest => runLengthsAux (k + 1) rest
  | k, false :: rest =>
    if k = 0 then runLengthsAux 0 rest else k :: runLengthsAux 0 rest

/-- Lengths of the maximal contiguous `true`-runs of a boolean sequence. -/
def runLengths (bs : List Bool) : List Nat := runLengthsAux 0 bs

/-- The debounce state reached in the middle of a detection run: `j` is the
cycle index at which the run started (so `detected_since = j * P`) and `k`
is the number of `true` cycles seen so far in the run. -/
def mkState (P T j : Nat) : Nat → DetectionState
  | 0 => ⟨none, false⟩
  | k + 1 => ⟨some (j * P), decide (T ≤ k * P)⟩

/-- Mirror of `detect_in_frames` (detector.py lines 133-158): walk the
captured frames in order; the external detector is modelled by the class-name
lists it returns per frame.  The first frame whose class-name list contains
the target short-circuits with `(true, that frame)`; otherwise the result is
`(false, none)`. -/
def detect_in_frames {F : Type} (det : F → List String) (target : String) :
    List F → Bool × Option F
  | [] => (false, none)
  | f :: rest =>
    if target ∈ det f then (true, some f) else detect_in_frames det target rest

/-- The frames on which `detect_in_frames` invokes the detector, in order
(one invocation per visited frame; the loop stops after the first match). -/
def detectInvoked {F : Type} (det : F → List String) (target : String) :
    List F → List F
  | [] => []
  | f :: rest =>
    if target ∈ det f then [f] else f :: detectInvoked det target rest

/-- The sampling loop of `main` (detector.py lines 170-188) as seen by the
`frames` list and the `frame` variable: each read either yields a frame
(`some f`) or fails (`none`, in which case `cap.read()` still assigns the
`frame` variable).  Returns the collected `frames` list and the final value
of the `frame` variable (the last read's result). -/
def captureLoop {F : Type} (reads : List (Option F)) : List F × Option F :=
  reads.foldl
    (fun acc r => ((match r with | some f => acc.1 ++ [f] | none => acc.1), r))
    ([], none)

/-- The image source used by the threshold-crossing branch of `main`
(detector.py line 215): `detector.draw_detections(frame)` reads the loop
variable `frame`, i.e. the result of the last `cap.read()` of the sampling
phase — not the `detected_frame` evidence returned by `detect_in_frames`. -/
def mainRenderSource {F : Type} (reads : List (Option F)) : Option F :=
  (captureLoop reads).2

/-- The timing skeleton of the sampling loop (detector.py lines 181-188):
`D` is the sampling duration, `gap` the inter-read interval
(`1 / SAMPLING_RATE_FPS`), `t` the current elapsed time and the list holds
the outcomes of the successive `cap.read()` attempts.  Each loop iteration
records the attempt time; `time.sleep(frame_interval)` runs only after a
successful read, while a failed read hits `continue` and retries at the same
time. -/
def samplingLoop {F : Type} (D gap : Nat) : Nat → List (Option F) → List (Nat × Option F)
  | _, [] => []
  | t, r :: rest =>
    if t < D then (t, r) :: samplingLoop D gap (if r.isSome then t + gap else t) rest
    else []

/-- Successive read attempts are correctly spaced: after a successful read at
time `t` the next attempt is at `t + gap`, after a failed read the next
attempt happens at the same time `t` (the `continue` skips the sleep). -/
def consecutiveSpaced {F : Type} (gap : Nat) : List (Nat × Option F) → Prop
  | [] => True
  | [_] => True
  | a :: b :: rest =>
    (b.1 = if a.2.isSome then a.1 + gap else a.1) ∧ consecutiveSpaced gap (b :: rest)

/-- A call made to the AlertSink HTTP surface: a text alert
(`POST /send_alert`) or an image alert (`POST /send_image`). -/
inductive SinkCall where
  | text (message : String) : SinkCall
  | image (path : String) (caption : String) : SinkCall
  deriving DecidableEq, Repr

/-- Outcome of the single HTTP POST inside `send_alert_image`: a successful
response with a JSON body, a successful response whose body fails to parse
as JSON (`ValueError`), or a request error (`RequestException`). -/
inductive PostOutcome where
  | ok (resp : String) : PostOutcome
  | badJson : PostOutcome
  | err (e : String) : PostOutcome
  deriving DecidableEq, Repr

/-- What `send_alert_image` logs on each of its return paths. -/
inductive SendLog where
  | fileMissing (path : String) : SendLog
  | sent (resp : String) : SendLog
  | failedSend (e : String) : SendLog
  | failedParse : SendLog
  deriving DecidableEq, Repr

/-- Mirror of `send_alert` (detector.py lines 79-86): a single POST of the
message to the text route; request errors are caught and printed. -/
def send_alert_calls (message : String) : List SinkCall := [SinkCall.text message]

/-- Mirror of `send_alert_image` (detector.py lines 88-127): if the file is
missing, return after printing; otherwise make exactly one POST to the image
route and absorb every error (`RequestException`, JSON `ValueError`) into a
printed log line.  Returns the log entry and the sink calls made. -/
def send_alert_image (fileExists : Bool) (outcome : PostOutcome)
    (path caption : String) : SendLog × List SinkCall :=
  if fileExists then
    match outcome with
    | PostOutcome.ok r => (SendLog.sent r, [SinkCall.image path caption])
    | PostOutcome.badJson => (SendLog.failedParse, [SinkCall.image path caption])
    | PostOutcome.err e => (SendLog.failedSend e, [SinkCall.image path caption])
  else (SendLog.fileMissing path, [])

/-- The threshold-crossing branch of `main` (detector.py lines 211-229):
render and save the image, call `send_alert_image` with the alert message as
caption, then set `alert_sent := true`.  The former `send_alert` text call is
commented out in the source and therefore absent.  Returns the new state,
the delivery log and the sink calls made. -/
def mainFire (s : DetectionState) (fileExists : Bool) (outcome : PostOutcome)
    (path caption : String) : DetectionState × SendLog × List SinkCall :=
  ((⟨s.detected_since, true⟩ : DetectionState),
    send_alert_image fileExists outcome path caption)

/-- The quality-reduction loop of `compress_image` (alert_server.py lines
63-78), instrumented with the encode count: `encode q` is the byte size PIL
produces at quality `q` for the fixed decoded image, `maxB` is
`max_size_kb * 1024`, `size` the size of the last encode and `n` the number
of encodes so far.  Returns (final size, final quality, total encodes). -/
def compressAux (encode : Nat → Nat) (maxB : Nat) (quality size n : Nat) :
    Nat × Nat × Nat :=
  if h : maxB < size ∧ 10 < quality then
    compressAux encode maxB (quality - 5) (encode (quality - 5)) (n + 1)
  else (size, quality, n)
termination_by quality
decreasing_by omega

/-- Mirror of `compress_image` (alert_server.py lines 47-78), instrumented:
one initial encode at quality 85, then the reduction loop. -/
def compress_image (encode : Nat → Nat) (max_size_kb : Nat) : Nat × Nat × Nat :=
  compressAux encode (max_size_kb * 1024) 85 (encode 85) 1

/-- The quality-reduction loop of `compress_image` at the byte level:
`img` is the decoded image, `enc img q` the bytes PIL produces at quality
`q`, `len` the byte length, `cur` the current compressed bytes. -/
def compressBytesAux {β ι : Type} (img : ι) (enc : ι → Nat → β) (len : β → Nat)
    (maxB : Nat) (quality : Nat) (cur : β) : β :=
  if h : maxB < len cur ∧ 10 < quality then
    compressBytesAux img enc len maxB (quality - 5) (enc img (quality - 5))
  else cur
termination_by quality
decreasing_by omega

/-- Mirror of `compress_image` (alert_server.py lines 47-78) as the
bytes-to-bytes function the server applies: decode the input bytes once,
encode at quality 85, then run the reduction loop. -/
def compress_image_bytes {β ι : Type} (decode : β → ι) (enc : ι → Nat → β)
    (len : β → Nat) (max_size_kb : Nat) (b : β) : β :=
  compressBytesAux (decode b) enc len (max_size_kb * 1024) 85 (enc (decode b) 85)

/-- C4: `detect_in_frames` invokes the detector on the frames in order and
returns `(true, f)` where `f` is the first frame whose detections contain the
target class, invoking the detector only on the frames up to and including
`f`; if no frame matches it returns `(false, none)` after invoking the
detector on every frame of the window. -/
theorem c4_first_match {F : Type} (det : F → List String) (target : String)
    (frames : List F) :
    detect_in_frames det target frames =
      (match frames.find? (fun f => decide (target ∈ det f)) with
        | some f => (true, some f)
        | none => (false, none)) ∧
    detectInvoked det target frames =
      (match frames.find? (fun f => decide (target ∈ det f)) with
        | some f => frames.takeWhile (fun f => !decide (target ∈ det f)) ++ [f]
        | none => frames) := by
  induction frames with
  | nil => exact ⟨rfl, rfl⟩
  | cons f rest ih =>
    by_cases h : target ∈ det f
    · simp [detect_in_frames, detectInvoked, List.find?, List.takeWhile, h]
    · cases hfind : rest.find? (fun f => decide (target ∈ det f)) with
      | none =>
        simp only [hfind] at ih
        simp [detect_in_frames, detectInvoked, List.find?, List.takeWhile, h,
          hfind, ih.1, ih.2]
      | some g =>
        simp only [hfind] at ih
        simp [detect_in_frames, detectInvoked, List.find?, List.takeWhile, h,
          hfind, ih.1, ih.2]

/-- C10: on the empty frame sequence (a window in which every capture attempt
failed), `detect_in_frames` returns `(false, none)` without invoking the
detector, which is the same observable result as any genuinely non-matching
window, and the `present = false` cycle of `main` resets the debounce state
to `detected_since = none`, `alert_sent = false`. -/
theorem c10_empty_window (det : Nat → List String) (target : String) :
    detect_in_frames det target ([] : List Nat) = (false, none) ∧
    detectInvoked det target ([] : List Nat) = [] ∧
    (∀ T s now, mainDebounceStep T s false now = (⟨none, false⟩, false)) ∧
    (∀ frames : List Nat, (∀ f ∈ frames, target ∉ det f) →
      detect_in_frames det target frames = (false, none)) := by
  refine ⟨rfl, rfl, fun T s now => rfl, fun frames h => ?_⟩
  induction frames with
  | nil => rfl
  | cons f rest ih =>
    have hf : target ∉ det f := h f (by simp)
    simp only [detect_in_frames, if_neg hf]
    exact ih fun g hg => h g (by simp [hg])

/-- Witness for C10 at a concrete non-matching window. -/
theorem c10_empty_window_witness :
    detect_in_frames (fun _ => ([] : List String)) "dog" ([3] : List Nat) =
      (false, none) :=
  (c10_empty_window (fun _ => []) "dog").2.2.2 [3] (by simp)

/-- C2 (code bug): in the threshold-crossing branch, `main` draws detections
on the loop variable `frame` — the last frame read by the sampling loop —
while the evidence frame computed by `detect_in_frames` (its unused
`detected_frame` return) is the first matching frame.  Concrete failing
window: two successful reads, frame 0 containing the target and frame 1 not;
the evidence is frame 0 but the rendered source is frame 1. -/
theorem c2_rendered_not_evidence :
    mainRenderSource [some (0 : Nat), some 1] = some 1 ∧
    (detect_in_frames (fun f : Nat => if f = 0 then ["dog"] else []) "dog"
      (captureLoop [some (0 : Nat), some 1]).1).2 = some 0 ∧
    mainRenderSource [some (0 : Nat), some 1] ≠
      (detect_in_frames (fun f : Nat => if f = 0 then ["dog"] else []) "dog"
        (captureLoop [some (0 : Nat), some 1]).1).2 := by
  refine ⟨rfl, ?_, ?_⟩ <;> decide

/-- C3 counterexample: the threshold-crossing branch of `main` makes no text
call to the AlertSink — the former `send_alert` call is commented out — so
the claim that both a text alert and an image alert are delivered fails even
when the image delivery succeeds. -/
theorem c3_no_text_call :
    (mainFire initState true (PostOutcome.ok "r") "f" "m").2.2 =
      [SinkCall.image "f" "m"] ∧
    SinkCall.text "m" ∉ (mainFire initState true (PostOutcome.ok "r") "f" "m").2.2 := by
  refine ⟨rfl, ?_⟩
  decide

/-- C3 amended: on the threshold-crossing transition the dispatcher makes a
single AlertSink call — the image alert carrying the alert message as its
caption — and no text call of any message; the delivery outcome (success,
parse failure or request error) does not change the resulting debounce
state. -/
theorem c3_single_image_call (s : DetectionState) (outcome : PostOutcome)
    (path caption : String) :
    (mainFire s true outcome path caption).2.2 = [SinkCall.image path caption] ∧
    (∀ m, SinkCall.text m ∉ (mainFire s true outcome path caption).2.2) ∧
    (mainFire s true outcome path caption).1 =
      (mainFire s true (PostOutcome.ok "r") path caption).1 := by
  cases outcome <;>
    exact ⟨rfl, fun m hm => by simp [mainFire, send_alert_image] at hm, rfl⟩

/-- Witness for C3's amended statement at a concrete dispatch. -/
theorem c3_single_image_call_witness :
    (mainFire initState true (PostOutcome.err "e") "f" "m").2.2 =
      [SinkCall.image "f" "m"] ∧
    (∀ m, SinkCall.text m ∉ (mainFire initState true (PostOutcome.err "e") "f" "m").2.2) ∧
    (mainFire initState true (PostOutcome.err "e") "f" "m").1 =
      (mainFire initState true (PostOutcome.ok "r") "f" "m").1 :=
  c3_single_image_call initState (PostOutcome.err "e") "f" "m"

/-- C8: a delivery failure inside `send_alert_image` is absorbed into a log
entry, exactly one POST attempt is made (no retry), the state update of
`main` is identical to the success case — `alert_sent` is still set to true —
and a subsequent cycle of the same episode does not fire again. -/
theorem c8_failure_absorbed (s : DetectionState) (e path caption : String) :
    (mainFire s true (PostOutcome.err e) path caption).1 =
      (mainFire s true (PostOutcome.ok "ok") path caption).1 ∧
    (mainFire s true (PostOutcome.err e) path caption).1.alert_sent = true ∧
    (mainFire s true (PostOutcome.err e) path caption).2.1 = SendLog.failedSend e ∧
    ((mainFire s true (PostOutcome.err e) path caption).2.2).length = 1 ∧
    (∀ T t0 now, mainDebounceStep T ⟨some t0, true⟩ true now = (⟨some t0, true⟩, false)) := by
  refine ⟨rfl, rfl, rfl, rfl, fun T t0 now => ?_⟩
  simp [mainDebounceStep]

/-- The first recorded attempt of the sampling loop happens at the entry
time. -/
theorem samplingLoop_head_time {F : Type} (D gap : Nat) :
    ∀ (outcomes : List (Option F)) (t : Nat) (p : Nat × Option F),
      (samplingLoop D gap t outcomes).head? = some p → p.1 = t := by
  intro outcomes t p h
  cases outcomes with
  | nil => simp [samplingLoop] at h
  | cons r rest =>
    by_cases ht : t < D
    · simp [samplingLoop, ht] at h
      simp [← h]
    · simp [samplingLoop, ht] at h

/-- C9 counterexample: with duration 10 and inter-read gap 2, a failed first
read is followed by a second read attempt at the same instant 0 — strictly
earlier than the next scheduled tick 0 + 2 — because `continue` skips the
`time.sleep(frame_interval)` call. -/
theorem c9_immediate_retry :
    samplingLoop 10 2 0 [none, some (5 : Nat)] = [(0, none), (0, some 5)] ∧
    (0 : Nat) < 0 + 2 := by
  exact ⟨rfl, by decide⟩

/-- C9 amended: a failed read is skipped without aborting the window — the
loop simply proceeds to the next read — but the inter-read spacing is only
observed after successful reads: consecutive attempt times satisfy
`next = prev + gap` after a success and `next = prev` (immediate retry, no
sleep) after a failure. -/
theorem c9_spacing {F : Type} (D gap t : Nat) (outcomes : List (Option F)) :
    consecutiveSpaced gap (samplingLoop D gap t outcomes) ∧
    (∀ rest : List (Option F), t < D →
      samplingLoop D gap t (none :: rest) = (t, none) :: samplingLoop D gap t rest) ∧
    (∀ (f : F) (rest : List (Option F)), t < D →
      samplingLoop D gap t (some f :: rest) =
        (t, some f) :: samplingLoop D gap (t + gap) rest) := by
  refine ⟨?_, fun rest ht => by simp [samplingLoop, ht],
    fun f rest ht => by simp [samplingLoop, ht]⟩
  induction outcomes generalizing t with
  | nil => simp [samplingLoop, consecutiveSpaced]
  | cons r rest ih =>
    by_cases ht : t < D
    · simp only [samplingLoop, if_pos ht]
      cases hL : samplingLoop D gap (if r.isSome then t + gap else t) rest with
      | nil => simp [consecutiveSpaced]
      | cons q L =>
        have hq : q.1 = if r.isSome then t + gap else t :=
          samplingLoop_head_time D gap rest _ q (by simp [hL])
        have := ih (if r.isSome then t + gap else t)
        rw [hL] at this
        exact ⟨hq, this⟩
    · simp [samplingLoop, ht, consecutiveSpaced]

/-- Witness for C9's amended statement at a concrete window. -/
theorem c9_spacing_witness :
    samplingLoop 10 2 0 ((none : Option Nat) :: [some 5]) =
      (0, none) :: samplingLoop 10 2 0 [some 5] ∧
    samplingLoop 10 2 0 ((some (5 : Nat)) :: []) =
      (0, some 5) :: samplingLoop 10 2 (0 + 2) [] :=
  ⟨(c9_spacing 10 2 0 ([none, some 5] : List (Option Nat))).2.1 [some 5] (by decide),
    (c9_spacing 10 2 0 ([none, some 5] : List (Option Nat))).2.2 5 [] (by decide)⟩

/-- Full characterisation of the quality-reduction loop: starting from a
quality that is a multiple of 5 and at least 10, with the size of the encode
at that quality, the loop performs some number `i` of further encodes, ends
at quality `q - 5 * i ≥ 10` with the size of the encode there, exits only
when the budget is met or the floor 10 is reached, and every quality it left
behind produced an over-budget encode. -/
theorem compressAux_spec (encode : Nat → Nat) (maxB : Nat) :
    ∀ q, 10 ≤ q → q % 5 = 0 → ∀ n,
      ∃ i, compressAux encode maxB q (encode q) n =
          (encode (q - 5 * i), q - 5 * i, n + i) ∧
        10 ≤ q - 5 * i ∧ (encode (q - 5 * i) ≤ maxB ∨ q - 5 * i = 10) ∧
        (∀ k < i, maxB < encode (q - 5 * k)) := by
  intro q
  induction q using Nat.strong_induction_on with
  | _ q ih =>
    intro hq hq5 n
    rw [compressAux]
    by_cases hc : maxB < encode q ∧ 10 < q
    · rw [dif_pos hc]
      have hq15 : 15 ≤ q := by omega
      obtain ⟨i, h1, h2, h3, h4⟩ :=
        ih (q - 5) (by omega) (by omega) (by omega) (n + 1)
      refine ⟨i + 1, ?_, ?_, ?_, ?_⟩
      · rw [h1]
        have e1 : q - 5 - 5 * i = q - 5 * (i + 1) := by omega
        rw [e1]
        have e2 : n + 1 + i = n + (i + 1) := by omega
        rw [e2]
      · omega
      · have e1 : q - 5 - 5 * i = q - 5 * (i + 1) := by omega
        rw [e1] at h3
        exact h3
      · intro k hk
        cases k with
        | zero => simpa using hc.1
        | succ k =>
          have e1 : q - 5 * (k + 1) = q - 5 - 5 * k := by omega
          rw [e1]
          exact h4 k (by omega)
    · rw [dif_neg hc]
      refine ⟨0, by simp, by simpa using hq, ?_, fun k hk => absurd hk (by omega)⟩
      simp only [Nat.mul_zero, Nat.sub_zero]
      rcases not_and_or.mp hc with h | h
      · exact Or.inl (by omega)
      · exact Or.inr (by omega)

/-- C6: for every encoder behaviour and byte budget, the compression loop of
`compress_image` terminates with at most `(85 − 10) / 5 + 1 = 16` encode
operations, its result is the encode at the final quality
`85 − 5 * (n − 1)`, it stops exactly when the size fits the budget or the
quality floor 10 is reached, and every encode before the final one was over
budget (it stops as soon as the exit condition holds). -/
theorem c6_compress_bound (encode : Nat → Nat) (max_size_kb : Nat) :
    ∃ n q, compress_image encode max_size_kb = (encode q, q, n) ∧ n ≤ 16 ∧
      q = 85 - 5 * (n - 1) ∧ (encode q ≤ max_size_kb * 1024 ∨ q = 10) ∧
      (∀ k, k + 1 < n → max_size_kb * 1024 < encode (85 - 5 * k)) := by
  obtain ⟨i, h1, h2, h3, h4⟩ :=
    compressAux_spec encode (max_size_kb * 1024) 85 (by norm_num) (by norm_num) 1
  refine ⟨1 + i, 85 - 5 * i, h1, by omega, by omega, h3, fun k hk => h4 k (by omega)⟩

/-- Witness for C6 at a concrete encoder and budget. -/
theorem c6_compress_bound_witness :
    ∃ n q, compress_image (fun _ => 0) 1 = ((fun _ => (0 : Nat)) q, q, n) ∧ n ≤ 16 ∧
      q = 85 - 5 * (n - 1) ∧ ((fun _ => (0 : Nat)) q ≤ 1 * 1024 ∨ q = 10) ∧
      (∀ k, k + 1 < n → 1 * 1024 < (fun _ => (0 : Nat)) (85 - 5 * k)) :=
  c6_compress_bound (fun _ => 0) 1

/-- C7 counterexample: compression is not idempotent.  `compress_image`
always decodes its input and re-encodes it at quality 85 before checking any
size, so re-running it on its own output need not return that output.  With
the concrete encoder model `enc img q = img + q` (sizes small enough that
the loop body never runs), compressing bytes 0 under budget 1 KB yields 85,
and compressing 85 yields 170 ≠ 85. -/
theorem c7_not_idempotent :
    compress_image_bytes (id : Nat → Nat) (fun i q => i + q) id 1
        (compress_image_bytes (id : Nat → Nat) (fun i q => i + q) id 1 0) ≠
      compress_image_bytes (id : Nat → Nat) (fun i q => i + q) id 1 0 := by
  have h0 : compress_image_bytes (id : Nat → Nat) (fun i q => i + q) id 1 0 = 85 := by
    rw [compress_image_bytes, compressBytesAux]
    norm_num
  have h85 : compress_image_bytes (id : Nat → Nat) (fun i q => i + q) id 1 85 = 170 := by
    rw [compress_image_bytes, compressBytesAux]
    norm_num
  rw [h0, h85]
  norm_num

/-- C7 amended: re-compressing under the same budget is a single fresh encode
at the start quality 85, not the identity: whenever the quality-85 encode of
the (decoded) input fits the byte budget — in particular for an
already-compressed input that still decodes and re-encodes within budget —
`compress_image` performs exactly that one encode, enters the reduction loop
zero times, and returns the re-encoded bytes, which need not equal the input
bytes. -/
theorem c7_recompress_single_encode {β ι : Type} (decode : β → ι)
    (enc : ι → Nat → β) (len : β → Nat) (kb : Nat) (b : β)
    (h : len (enc (decode b) 85) ≤ kb * 1024) :
    compress_image_bytes decode enc len kb b = enc (decode b) 85 := by
  rw [compress_image_bytes, compressBytesAux]
  exact dif_neg (by omega)

/-- Witness for C7's amended statement at a concrete encoder. -/
theorem c7_recompress_single_encode_witness :
    (id ((fun (i q : Nat) => i + q) (id 0) 85) ≤ 1 * 1024) ∧
    compress_image_bytes (id : Nat → Nat) (fun i q => i + q) id 1 0 =
      (fun (i q : Nat) => i + q) (id 0) 85 :=
  ⟨by norm_num, c7_recompress_single_encode id (fun i q => i + q) id 1 0 (by norm_num)⟩

/-- Running the debounce over appended input lists composes. -/
theorem runDebounce_append (T : Nat) (s : DetectionState) (xs ys : List (Bool × Nat)) :
    runDebounce T s (xs ++ ys) = runDebounce T (runDebounce T s xs) ys := by
  induction xs generalizing s with
  | nil => rfl
  | cons x rest ih =>
    obtain ⟨b, t⟩ := x
    simp only [List.cons_append, runDebounce]
    exact ih _

/-- A `present = true` cycle never changes an already-set `detected_since`. -/
theorem step_true_detected_since (T : Nat) (s : DetectionState) (t0 now : Nat)
    (h : s.detected_since = some t0) :
    (mainDebounceStep T s true now).1.detected_since = some t0 := by
  simp only [mainDebounceStep, h, if_true]
  split_ifs <;> simp [h]

/-- `alert_sent` implies a set `detected_since`, preserved along any run. -/
theorem runDebounce_alert_sent_some (T : Nat) :
    ∀ (inputs : List (Bool × Nat)) (s : DetectionState),
      (s.alert_sent = true → s.detected_since ≠ none) →
      (runDebounce T s inputs).alert_sent = true →
      (runDebounce T s inputs).detected_since ≠ none := by
  intro inputs
  induction inputs with
  | nil => intro s h; exact h
  | cons x rest ih =>
    obtain ⟨b, t⟩ := x
    intro s h
    simp only [runDebounce]
    apply ih
    cases b with
    | false => simp [mainDebounceStep]
    | true =>
      cases hds : s.detected_since with
      | none => simp [mainDebounceStep, hds]
      | some t0 =>
        simp only [mainDebounceStep, hds, if_true]
        split_ifs with hc
        · simp
        · intro _
          simp [hds]

/-- If `detected_since` is set after a run from the initial state, the input
splits into a prefix after which `detected_since` was still unset, the
`present = true` cycle at time `t` that set it, and an all-`true` suffix
throughout which `detected_since` keeps the value `t`. -/
theorem runDebounce_history (T : Nat) :
    ∀ (inputs : List (Bool × Nat)) (t : Nat),
      (runDebounce T initState inputs).detected_since = some t →
      ∃ pre rest, inputs = pre ++ (true, t) :: rest ∧
        (runDebounce T initState pre).detected_since = none ∧
        (∀ x ∈ rest, x.1 = true) ∧
        (∀ rest₁ rest₂, rest = rest₁ ++ rest₂ →
          (runDebounce T initState (pre ++ (true, t) :: rest₁)).detected_since = some t) := by
  intro inputs
  induction inputs using List.reverseRecOn with
  | nil => intro t h; simp [runDebounce, initState] at h
  | append_singleton ys x ih =>
    obtain ⟨b, u⟩ := x
    intro t h
    rw [runDebounce_append] at h
    cases b with
    | false => simp [runDebounce, mainDebounceStep] at h
    | true =>
      cases hds : (runDebounce T initState ys).detected_since with
      | none =>
        have ht : u = t := by
          simp [runDebounce, mainDebounceStep, hds] at h
          exact h
        subst ht
        refine ⟨ys, [], by simp, hds, by simp, ?_⟩
        intro rest₁ rest₂ hr
        have h1 : rest₁ = [] := by
          cases rest₁ with
          | nil => rfl
          | cons y l => simp at hr
        subst h1
        rw [runDebounce_append]
        simp [runDebounce, mainDebounceStep, hds]
      | some t0 =>
        have hpres : (mainDebounceStep T (runDebounce T initState ys) true u).1.detected_since
            = some t0 := step_true_detected_since T _ t0 u hds
        have ht : t0 = t := by
          have h2 : (mainDebounceStep T (runDebounce T initState ys) true u).1.detected_since
              = some t := h
          rw [hpres] at h2
          exact Option.some.inj h2
        subst ht
        obtain ⟨pre, rest, hsplit, hpre, hall, hkeep⟩ := ih t0 hds
        refine ⟨pre, rest ++ [(true, u)], by rw [hsplit]; simp, hpre, ?_, ?_⟩
        · intro x hx
          rcases List.mem_append.mp hx with hx | hx
          · exact hall x hx
          · simp at hx
            simp [hx]
        · intro rest₁ rest₂ hr
          rcases List.append_eq_append_iff.mp hr with ⟨a2, ha1, ha2⟩ | ⟨c2, hc1, hc2⟩
          · cases a2 with
            | nil =>
              rw [List.append_nil] at ha1
              rw [ha1, ← hsplit]
              exact hds
            | cons y l =>
              have hy : y = (true, u) ∧ l ++ rest₂ = [] := List.cons.inj ha2.symm
              have hl : l = [] := (List.append_eq_nil.mp hy.2).1
              rw [ha1, hy.1, hl]
              have h4 : pre ++ (true, t0) :: (rest ++ [(true, u)]) =
                  ys ++ [(true, u)] := by
                rw [hsplit]
                simp
              rw [h4, runDebounce_append]
              exact hpres
          · exact hkeep rest₁ c2 hc1

/-- C5: in every state reachable by debounce steps from the initial state,
`alert_sent` is true only if `detected_since` is set and has remained set —
with the same value `t`, through `present = true` cycles only — ever since
the cycle that set it; and every `present = false` cycle resets the state to
`detected_since = none`, `alert_sent = false`. -/
theorem c5_alert_invariant (T : Nat) (inputs : List (Bool × Nat)) :
    ((runDebounce T initState inputs).alert_sent = true →
      ∃ pre t rest, inputs = pre ++ (true, t) :: rest ∧
        (runDebounce T initState pre).detected_since = none ∧
        (∀ x ∈ rest, x.1 = true) ∧
        (runDebounce T initState inputs).detected_since = some t ∧
        (∀ rest₁ rest₂, rest = rest₁ ++ rest₂ →
          (runDebounce T initState (pre ++ (true, t) :: rest₁)).detected_since = some t)) ∧
    (∀ s now, mainDebounceStep T s false now = (⟨none, false⟩, false)) := by
  constructor
  · intro halert
    have hne : (runDebounce T initState inputs).detected_since ≠ none :=
      runDebounce_alert_sent_some T inputs initState (by simp [initState]) halert
    obtain ⟨t, ht⟩ := Option.ne_none_iff_exists'.mp hne
    obtain ⟨pre, rest, h1, h2, h3, h4⟩ := runDebounce_history T inputs t ht
    exact ⟨pre, t, rest, h1, h2, h3, ht, h4⟩
  · intro s now
    rfl

/-- Witness for C5 on a concrete two-cycle episode that fires. -/
theorem c5_alert_invariant_witness :
    ∃ pre t rest, ([(true, 0), (true, 2)] : List (Bool × Nat)) = pre ++ (true, t) :: rest ∧
      (runDebounce 1 initState pre).detected_since = none ∧
      (∀ x ∈ rest, x.1 = true) ∧
      (runDebounce 1 initState [(true, 0), (true, 2)]).detected_since = some t ∧
      (∀ rest₁ rest₂, rest = rest₁ ++ rest₂ →
        (runDebounce 1 initState (pre ++ (true, t) :: rest₁)).detected_since = some t) :=
  (c5_alert_invariant 1 [(true, 0), (true, 2)]).1 (by decide)

/-- One `present = true` cycle at time `(j + k) * P` taken from the mid-run
state after `k` consecutive detections of a run that started at cycle `j`:
the state advances to the mid-run state for `k + 1` detections, and the
cycle fires exactly when the elapsed time `k * P` first reaches the
threshold. -/
theorem debounce_step_run (P T : Nat) (hT : 0 < T) (j k : Nat) :
    mainDebounceStep T (mkState P T j k) true ((j + k) * P) =
      (mkState P T j (k + 1), decide (0 < k ∧ T ≤ k * P ∧ ¬ T ≤ (k - 1) * P)) := by
  cases k with
  | zero =>
    have h1 : ¬ T ≤ 0 * P := by rw [Nat.zero_mul]; omega
    simp [mainDebounceStep, mkState, h1]
    omega
  | succ k2 =>
    have hs : (k2 + 1) * P = k2 * P + P := Nat.succ_mul k2 P
    have helap : (j + (k2 + 1)) * P - j * P = (k2 + 1) * P := by
      rw [Nat.add_mul]; omega
    by_cases hA : T ≤ k2 * P
    · have hB : T ≤ (k2 + 1) * P := by omega
      simp [mainDebounceStep, mkState, helap, hA, hB]
    · by_cases hB : T ≤ (k2 + 1) * P
      · simp [mainDebounceStep, mkState, helap, hA, hB]
      · simp [mainDebounceStep, mkState, helap, hA, hB]

/-- Running the debounce from any mid-run state and adding one for the
current run if it has already fired equals the count of qualifying maximal
runs (those of length `L` with `(L - 1) * P ≥ T`) of the remaining input,
with the current partial run of length `k` prepended. -/
theorem runAlerts_eq_countP (P T : Nat) (hT : 0 < T) :
    ∀ (bs : List Bool) (j k : Nat),
      runAlerts P T (mkState P T j k) (j + k) bs +
          (if 0 < k ∧ T ≤ (k - 1) * P then 1 else 0) =
        List.countP (fun L => decide (T ≤ (L - 1) * P)) (runLengthsAux k bs) := by
  intro bs
  induction bs with
  | nil =>
    intro j k
    cases k with
    | zero => simp [runAlerts, runLengthsAux]
    | succ k2 =>
      by_cases h : T ≤ k2 * P <;>
        simp [runAlerts, runLengthsAux, List.countP_cons, h]
  | cons b rest ih =>
    intro j k
    cases b with
    | true =>
      have hrl : runLengthsAux k (true :: rest) = runLengthsAux (k + 1) rest := rfl
      rw [hrl]
      simp only [runAlerts]
      rw [debounce_step_run P T hT j k]
      have hidx : j + k + 1 = j + (k + 1) := by omega
      rw [hidx]
      have hih := ih j (k + 1)
      rw [← hih]
      simp only [Nat.succ_sub_one]
      rcases Nat.eq_zero_or_pos k with hk | hk
      · subst hk
        have h0 : ¬ T ≤ 0 * P := by rw [Nat.zero_mul]; omega
        simp [h0]
        omega
      · obtain ⟨k2, rfl⟩ : ∃ k2, k = k2 + 1 := ⟨k - 1, by omega⟩
        have hs : (k2 + 1) * P = k2 * P + P := Nat.succ_mul k2 P
        simp only [Nat.succ_sub_one]
        by_cases hA : T ≤ k2 * P
        · have hB : T ≤ (k2 + 1) * P := by omega
          simp [hA, hB]
        · by_cases hB : T ≤ (k2 + 1) * P
          · simp [hA, hB]
            omega
          · simp [hA, hB]
    | false =>
      simp only [runAlerts]
      have hstep : mainDebounceStep T (mkState P T j k) false ((j + k) * P) =
          (mkState P T (j + k + 1) 0, false) := by
        cases k <;> rfl
      rw [hstep]
      have hih := ih (j + k + 1) 0
      simp only [Nat.add_zero] at hih
      rw [if_neg (by omega)] at hih
      cases k with
      | zero =>
        have hrl : runLengthsAux 0 (false :: rest) = runLengthsAux 0 rest := rfl
        rw [hrl]
        simpa using hih
      | succ k2 =>
        have hrl : runLengthsAux (k2 + 1) (false :: rest) =
            (k2 + 1) :: runLengthsAux 0 rest := rfl
        rw [hrl]
        rw [List.countP_cons]
        simp only [Nat.succ_sub_one]
        by_cases h : T ≤ k2 * P <;> simp [h] <;> omega

/-- C1 amended: for a fixed cycle period `P` and a positive threshold `T`,
the number of alerts fired over any sequence of per-cycle `present` booleans
equals the number of maximal contiguous `true`-runs whose observed duration
`(length − 1) * P` — the elapsed time from the run's first to its last
cycle, matching `now − detectedSince` in the code — is at least `T`; runs of
smaller duration fire nothing and each qualifying run fires exactly once. -/
theorem c1_run_count (P T : Nat) (presents : List Bool) (hT : 0 < T) :
    runAlerts P T initState 0 presents =
      List.countP (fun L => decide (T ≤ (L - 1) * P)) (runLengths presents) := by
  have h := runAlerts_eq_countP P T hT presents 0 0
  rw [if_neg (by omega)] at h
  simpa [mkState, initState, runLengths] using h

/-- C1 counterexample at threshold `T = 0`: a single-cycle run has observed
duration `0 ≥ T`, so the claim predicts one alert, but the first cycle of a
run only records `detected_since` and never fires, so the code fires none. -/
theorem c1_counterexample :
    runAlerts 1 0 initState 0 [true] ≠
      List.countP (fun L => decide ((0 : Nat) ≤ (L - 1) * 1)) (runLengths [true]) := by
  decide

/-- Witness for C1's amended statement on the spec's own concrete scenario:
period 1, threshold 2, presents [true, true, true, false, true] — exactly
one alert, from the single qualifying run of length 3. -/
theorem c1_run_count_witness :
    0 < 2 ∧ runAlerts 1 2 initState 0 [true, true, true, false, true] =
      List.countP (fun L => decide (2 ≤ (L - 1) * 1))
        (runLengths [true, true, true, false, true]) :=
  ⟨by decide, c1_run_count 1 2 [true, true, true, false, true] (by decide)⟩
